import Mathlib

/-!
Verification of the deterministic text-analysis pipeline of the
lyrik-analyzer repository (German text/poetry analysis).

Texts are modelled as lists of Unicode characters (`List Char`): a JS string
is a sequence of code points, and none of the inputs considered here leave
the basic multilingual plane.  JS numbers are modelled as exact rationals
(`ℚ`); every arithmetic operation performed by the code on the inputs
considered here is exact in ℚ.  The `toFixed(n)` display formatting of the
source is modelled, where its value feeds back into a computation, as exact
rational rounding to n decimal digits (half away from zero, which on the
non-negative values arising here agrees with JS), and is dropped where it is
pure display formatting of a result field.

Embedded modules:
* `normalizeUTF8` and friends   — utils/textUtils (unnamed part_000, second half)
* namespace `PPA`               — the older preprocessing module (part_000, first half)
* namespace `PPB`               — the newer preprocessing module (part_000, second half)
* namespace `TP`                — src/utils/textPreprocessing.js
* namespace `SA`                — src/services/syntaxAnalysis.js (rhyme analysis)
* namespace `TA`                — src/services/tokenAnalysis.js (NER application)
* namespace `SemA`              — src/services/semanticAnalysis.js (semantic fields)
* `ANALYSIS_CONFIG_*`           — utils/constants.js (unnamed part_002)
-/

/-- Shorthand: the character list of a string literal. -/
def str (s : String) : List Char := s.data

/-- Model of the JS whitespace class `\s`, restricted to the whitespace
characters that can occur in this development (ASCII whitespace and NBSP). -/
def isJsWhitespace (c : Char) : Bool :=
  c = ' ' ∨ c = '\t' ∨ c = '\n' ∨ c = '\r' ∨ c.toNat = 11 ∨ c.toNat = 12 ∨ c.toNat = 160

/-- Model of JS `String.prototype.toLowerCase`, restricted to the Latin
repertoire used by this repository: ASCII letters and the Latin-1 uppercase
letters (in particular Ä, Ö, Ü and the accented letters of the mis-encoding
table).  All other characters are fixed. -/
def jsToLower (c : Char) : Char :=
  if 'A' ≤ c ∧ c ≤ 'Z' then Char.ofNat (c.toNat + 32)
  else if 192 ≤ c.toNat ∧ c.toNat ≤ 222 ∧ c.toNat ≠ 215 then Char.ofNat (c.toNat + 32)
  else c

/-- JS `String.prototype.trim`: strip leading and trailing whitespace. -/
def jsTrim (l : List Char) : List Char :=
  ((l.dropWhile isJsWhitespace).reverse.dropWhile isJsWhitespace).reverse

/-- JS `String.prototype.split` with a single separator character
(used by the source as `text.split('\n')`): splitting keeps empty pieces. -/
def splitOnChar (sep : Char) : List Char → List (List Char)
  | [] => [[]]
  | c :: rest =>
    match splitOnChar sep rest with
    | [] => [[]]
    | cur :: acc => if c = sep then [] :: cur :: acc else (c :: cur) :: acc

/-- Worker for `jsSplitWs`; the Boolean records whether the scanner is
inside a whitespace run (in which case `cur` is empty). -/
def splitWsAux : List Char → List Char → Bool → List (List Char)
  | [], cur, _ => [cur.reverse]
  | c :: rest, cur, inWs =>
    if isJsWhitespace c then
      if inWs then splitWsAux rest cur true
      else cur.reverse :: splitWsAux rest [] true
    else splitWsAux rest (c :: cur) false

/-- JS `String.prototype.split(/\s+/)`: split at maximal whitespace runs,
producing an empty leading (resp. trailing) piece when the string starts
(resp. ends) with whitespace, exactly as JS does. -/
def jsSplitWs (l : List Char) : List (List Char) :=
  splitWsAux l [] false

/-- Whether `pat` occurs as a contiguous substring of `l`
(JS `RegExp.prototype.test` with a literal pattern). -/
def containsSub (pat : List Char) : List Char → Bool
  | [] => pat.isPrefixOf []
  | c :: rest => pat.isPrefixOf (c :: rest) || containsSub pat rest

/-- Worker for `replaceAll`: while `skip` is positive the character belongs
to an occurrence already replaced and is dropped; at `skip = 0` a prefix
match of `pat` emits `rep` and schedules the remaining `pat.length - 1`
matched characters for dropping. -/
def replaceAllAux (pat rep : List Char) : List Char → ℕ → List Char
  | [], _ => []
  | c :: rest, skip =>
    match skip with
    | n + 1 => replaceAllAux pat rep rest n
    | 0 =>
      if pat.isPrefixOf (c :: rest) then rep ++ replaceAllAux pat rep rest (pat.length - 1)
      else c :: replaceAllAux pat rep rest 0

/-- JS `text.split(pat).join(rep)`: replace every non-overlapping occurrence
of the literal substring `pat`, scanning left to right. -/
def replaceAll (pat rep : List Char) (text : List Char) : List Char :=
  if pat.length = 0 then text else replaceAllAux pat rep text 0

/-- Worker for `countOccur`; `skip` as in `replaceAllAux`. -/
def countOccurAux (pat : List Char) : List Char → ℕ → ℕ
  | [], _ => 0
  | c :: rest, skip =>
    match skip with
    | n + 1 => countOccurAux pat rest n
    | 0 =>
      if pat.isPrefixOf (c :: rest) then 1 + countOccurAux pat rest (pat.length - 1)
      else countOccurAux pat rest 0

/-- Number of non-overlapping occurrences of the literal substring `pat`,
scanning left to right (JS `string.match(new RegExp(pat, 'g'))` count). -/
def countOccur (pat : List Char) (text : List Char) : ℕ :=
  if pat.length = 0 then 0 else countOccurAux pat text 0

/-- JS `Math.round`: round half up (`Math.round(x) = ⌊x + 0.5⌋`). -/
def jsRound (q : ℚ) : ℤ := ⌊q + 1 / 2⌋

/-- JS `Number.prototype.toFixed(2)`, as an exact rational rounding to two
decimal digits.  JS rounds the decimal expansion of the underlying double
half away from zero; on the non-negative values arising in this development
that is rounding half up. -/
def round2 (q : ℚ) : ℚ := (⌊q * 100 + 1 / 2⌋ : ℚ) / 100

/-- JS `Number.prototype.toFixed(3)`, as an exact rational rounding to three
decimal digits (see `round2`). -/
def round3 (q : ℚ) : ℚ := (⌊q * 1000 + 1 / 2⌋ : ℚ) / 1000

/-- The `encodingFixes` table of `normalizeUTF8`, in JS object-iteration
order.  The source object literal contains the key `'â€"'` (U+00E2, U+20AC,
U+0022) twice, once with value '–' and once with value '—'; by JS object
semantics the duplicate collapses to a single entry at the first key's
position carrying the last value '—'. -/
def encodingFixes : List (List Char × List Char) :=
  [ ([ 'Ã', '¼' ], [ 'ü' ]),
    ([ 'Ã', '¤' ], [ 'ä' ]),
    ([ 'Ã', '¶' ], [ 'ö' ]),
    ([ 'Ã', 'Ÿ' ], [ 'ß' ]),
    ([ 'Ã', '„' ], [ 'Ä' ]),
    ([ 'Ã', '–' ], [ 'Ö' ]),
    ([ 'Ã', 'œ' ], [ 'Ü' ]),
    ([ 'Ã', '©' ], [ 'é' ]),
    ([ 'Ã', '¨' ], [ 'è' ]),
    ([ 'Ã', ' ' ], [ 'à' ]),
    ([ 'Ã', '¢' ], [ 'â' ]),
    ([ 'Ã', '«' ], [ 'ë' ]),
    ([ 'Ã', '®' ], [ 'î' ]),
    ([ 'Ã', '´' ], [ 'ô' ]),
    ([ 'Ã', '»' ], [ 'û' ]),
    ([ 'Ã', '§' ], [ 'ç' ]),
    ([ 'â', '€', 'œ' ], [ '"' ]),
    ([ 'â', '€' ], [ '"' ]),
    ([ 'â', '€', '™' ], [ Char.ofNat 39 ]),
    ([ 'â', '€', '˜' ], [ Char.ofNat 39 ]),
    ([ 'â', '€', '"' ], [ '—' ]),
    ([ 'â', '€', '¦' ], [ '…' ]),
    ([ 'Â', '»' ], [ '»' ]),
    ([ 'Â', '«' ], [ '«' ]),
    ([ 'Â', '°' ], [ '°' ]) ]

/-- Unicode NFC canonical composition (`String.prototype.normalize('NFC')`),
an external platform function.  Every character consumed or produced in this
development (ASCII, Latin-1 and the general-punctuation characters of the
mis-encoding table) is a precomposed, NFC-stable starter with no canonical
decomposition, and none of the modelled inputs contain combining marks, so
canonical composition acts as the identity on them; it is therefore modelled
as the identity. -/
def nfc (text : List Char) : List Char := text

/-- `normalizeUTF8` (utils/textUtils): apply the ordered mis-encoding fixes,
then NFC.  Empty (or, in JS, non-string) input is returned unchanged. -/
def normalizeUTF8 (text : List Char) : List Char :=
  if text = [] then text
  else nfc (encodingFixes.foldl (fun acc p => replaceAll p.1 p.2 acc) text)

/-- The sentence-terminal punctuation class `[.!?…]` of the segmenters. -/
def sentPunct (c : Char) : Bool :=
  c = '.' ∨ c = '!' ∨ c = '?' ∨ c = '…'

/-- Worker for `splitSent`, a three-state scanner over the line.  The
accumulators (all reversed) are the current chunk `cur`, the punctuation
run `punct` read after it and the whitespace run `ws` after that; the state
is chunk-reading while `punct = []`, punctuation-reading while `punct ≠ []`
and `ws = []`, and whitespace-reading while `ws ≠ []`.  A punctuation run
followed by whitespace forms a separator (emitting chunk and separator); a
punctuation run not followed by whitespace can never start a separator at
any position inside the run and is consumed into the chunk. -/
def splitSentAux : List Char → List Char → List Char → List Char → List (List Char)
  | [], cur, [], _ => [cur.reverse]
  | [], cur, punct, [] => [cur.reverse ++ punct.reverse]
  | [], cur, punct, ws => [cur.reverse, punct.reverse ++ ws.reverse, []]
  | c :: rest, cur, [], _ =>
    if sentPunct c then splitSentAux rest cur [c] []
    else splitSentAux rest (c :: cur) [] []
  | c :: rest, cur, punct, [] =>
    if sentPunct c then splitSentAux rest cur (c :: punct) []
    else if isJsWhitespace c then splitSentAux rest cur punct [c]
    else splitSentAux rest (c :: (punct ++ cur)) [] []
  | c :: rest, cur, punct, ws =>
    if isJsWhitespace c then splitSentAux rest cur punct (c :: ws)
    else if sentPunct c then
      cur.reverse :: (punct.reverse ++ ws.reverse) :: splitSentAux rest [] [c] []
    else
      cur.reverse :: (punct.reverse ++ ws.reverse) :: splitSentAux rest [c] [] []

/-- JS `line.split(/([.!?…]+\s+)/u)`: split at maximal punctuation-plus-
whitespace separators; because the regex group is capturing, the separators
themselves appear between the chunks, and empty chunks are kept. -/
def splitSent (l : List Char) : List (List Char) :=
  splitSentAux l [] [] []

/-- The abbreviation alternatives of the segmenters'
`/(?:Dr|Prof|etc|z\.B|d\.h|u\.a|usw|bzw|inkl|evtl|ggf)/u` (no anchors, so the
regex tests for a substring occurrence anywhere). -/
def abbreviations : List (List Char) :=
  [ str "Dr", str "Prof", str "etc", str "z.B", str "d.h", str "u.a",
    str "usw", str "bzw", str "inkl", str "evtl", str "ggf" ]

/-- `abbreviations.test(s)`: some abbreviation occurs as a substring. -/
def abbrevTest (t : List Char) : Bool :=
  abbreviations.any (fun a => containsSub a t)

/-- JS `/[.!?…]+\s+$/u.test(p)`: `p` ends with at least one sentence-terminal
punctuation character followed by at least one whitespace character. -/
def endsWithPunctWs (p : List Char) : Bool :=
  let r := p.reverse
  !(r.takeWhile isJsWhitespace).isEmpty &&
    !((r.dropWhile isJsWhitespace).takeWhile sentPunct).isEmpty

/-- German vowel class `[aeiouäöüy]` of the syllable estimators. -/
def vowelChar (c : Char) : Bool :=
  c = 'a' ∨ c = 'e' ∨ c = 'i' ∨ c = 'o' ∨ c = 'u' ∨ c = 'ä' ∨ c = 'ö' ∨ c = 'ü' ∨ c = 'y'

/-- Worker for `countRuns`; the Boolean records whether the scanner is
currently inside a run. -/
def countRunsAux (p : Char → Bool) : List Char → Bool → ℕ
  | [], _ => 0
  | c :: rest, inRun =>
    if p c then
      if inRun then countRunsAux p rest true else 1 + countRunsAux p rest true
    else countRunsAux p rest false

/-- Number of maximal runs of characters satisfying `p`
(JS `string.match(/[...]+/g)` count). -/
def countRuns (p : Char → Bool) (l : List Char) : ℕ :=
  countRunsAux p l false

/-- The German diphthong list of `estimateSyllables`. -/
def diphthongs : List (List Char) :=
  [ str "au", str "äu", str "ei", str "eu", str "ai", str "ie" ]

namespace PPB

/-- Sentence record of the part_000 `sentenceSegmentation`. -/
structure Sentence where
  text : List Char
  index : ℕ
  length : ℕ
deriving DecidableEq

/-- The per-line accumulation loop of the part_000 `sentenceSegmentation`:
append each piece to the current candidate; as soon as the candidate
contains sentence punctuation and no abbreviation substring, emit its
trimmed form and restart; any trimmed non-empty leftover is emitted after
the loop. -/
def lineLoop : List (List Char) → List Char → List (List Char)
  | [], cur => if jsTrim cur = [] then [] else [jsTrim cur]
  | p :: rest, cur =>
    let cur2 := cur ++ p
    if cur2.any sentPunct && !abbrevTest cur2 then jsTrim cur2 :: lineLoop rest []
    else lineLoop rest cur2

/-- `sentenceSegmentation` (part_000, second half): normalize UTF-8, split
into lines, segment each non-blank line at abbreviation-aware sentence
boundaries, and fall back to the whole trimmed text as a single sentence if
nothing was emitted.  The source assigns `index` as the running length of
the global result array, i.e. the final position. -/
def sentenceSegmentation (text : List Char) : List Sentence :=
  if text = [] then []
  else
    let normalized := normalizeUTF8 text
    let lines := splitOnChar '\n' normalized
    let texts := lines.foldl
      (fun acc line =>
        if jsTrim line = [] then acc
        else acc ++ lineLoop ((splitSent line).filter (fun s => !(jsTrim s).isEmpty)) [])
      []
    let sentences := texts.enum.map
      (fun p => { text := p.2, index := p.1, length := p.2.length : Sentence })
    if sentences.isEmpty then
      [{ text := jsTrim normalized, index := 0, length := (jsTrim normalized).length }]
    else sentences

/-- Single-word body of the part_000 `estimateSyllables`: count maximal
vowel runs (1 if none), subtract half per diphthong occurrence, `Math.round`
half up, floor at 1.  In the source the alternation `/[aeiouäöüy]+|.../g`
lists the vowel-run branch first, so the diphthong alternatives can never
match and the match count is exactly the number of maximal vowel runs. -/
def estimateSyllablesSingle (text : List Char) : ℕ :=
  let lower := text.map jsToLower
  let vowels := countRuns vowelChar lower
  if vowels = 0 then 1
  else
    let diph := (diphthongs.map (fun d => countOccur d lower)).sum
    Nat.max 1 (jsRound ((vowels : ℚ) - (diph : ℚ) / 2)).toNat

/-- `estimateSyllables` (part_000, second half).  For multi-word input the
source recurses once per word; a single word contains no whitespace, so the
recursive call always lands in the single-word branch, modelled by
`estimateSyllablesSingle`. -/
def estimateSyllables (text : List Char) : ℕ :=
  if text.length = 0 then 0
  else
    let words := (jsSplitWs text).filter (fun w => 0 < w.length)
    if 1 < words.length then (words.map estimateSyllablesSingle).sum
    else estimateSyllablesSingle text

/-- Verse record of the part_000 `detectVerses`. -/
structure Verse where
  text : List Char
  index : ℕ
  stanza : ℕ
  verseInStanza : ℕ
  length : ℕ
  wordCount : ℕ
  syllables : ℕ
deriving DecidableEq

/-- The line loop of `detectVerses`.  The source keeps the current stanza's
verses in an array `versesInStanza` of which only the length is ever
consumed (`verseInStanza: versesInStanza.length` and the emptiness test
guarding the stanza increment); it is modelled by the counter `inStanza`. -/
def detectVersesLines : List (List Char) → ℕ → ℕ → ℕ → List Verse
  | [], _, _, _ => []
  | line :: rest, verseIndex, stanzaIndex, inStanza =>
    let t := jsTrim line
    if t = [] then
      if 0 < inStanza then detectVersesLines rest verseIndex (stanzaIndex + 1) 0
      else detectVersesLines rest verseIndex stanzaIndex inStanza
    else
      { text := t, index := verseIndex, stanza := stanzaIndex, verseInStanza := inStanza,
        length := t.length,
        wordCount := ((jsSplitWs t).filter (fun w => 0 < w.length)).length,
        syllables := estimateSyllables t } ::
      detectVersesLines rest (verseIndex + 1) stanzaIndex (inStanza + 1)

/-- `detectVerses` (part_000, second half): normalize UTF-8, split on
newlines; a whitespace-only line closing a non-empty stanza increments the
stanza counter and resets the in-stanza counter; non-blank lines become
verses tagged with the current counters. -/
def detectVerses (text : List Char) : List Verse :=
  if text = [] then []
  else detectVersesLines (splitOnChar '\n' (normalizeUTF8 text)) 0 0 0

end PPB

namespace PPA

/-- Token shape of the part_000 tokenizer (first half). -/
structure Token where
  text : List Char
  index : ℕ
  position : ℕ
  isPunctuation : Bool
deriving DecidableEq

/-- `wordFrequency[word].push(position)` with on-demand entry creation:
JS object property insertion keeps first-insertion key order. -/
def pushPos : List (List Char × List ℕ) → List Char → ℕ → List (List Char × List ℕ)
  | [], w, p => [(w, [p])]
  | (k, v) :: rest, w, p =>
    if k = w then (k, v ++ [p]) :: rest else (k, v) :: pushPos rest w p

/-- The accumulation loop of `findRepetitions` over (lowercased word,
position) pairs. -/
def buildFreq : List (List Char × ℕ) → List (List Char × List ℕ) → List (List Char × List ℕ)
  | [], acc => acc
  | e :: rest, acc => buildFreq rest (pushPos acc e.1 e.2)

/-- An entry of the object returned by `findRepetitions`. -/
structure Repetition where
  word : List Char
  count : ℕ
  positions : List ℕ
deriving DecidableEq

/-- `findRepetitions` (part_000, first half): group non-punctuation tokens
of length ≥ `minLength` by lowercased text, keep the groups with at least
two positions. -/
def findRepetitions (tokens : List Token) (minLength : ℕ) : List Repetition :=
  let entries := (tokens.filter (fun t => !t.isPunctuation && minLength ≤ t.text.length)).map
    (fun t => (t.text.map jsToLower, t.position))
  ((buildFreq entries []).filter (fun e => 1 < e.2.length)).map
    (fun e => { word := e.1, count := e.2.length, positions := e.2 })

/-- Association lookup used in the statements about `findRepetitions`. -/
def findVal (w : List Char) : List (List Char × List ℕ) → Option (List ℕ)
  | [] => none
  | e :: rest => if e.1 = w then some e.2 else findVal w rest

/-- Claim-side count: how often a (lowercased) word occurs among the
non-punctuation tokens, with no length filter. -/
def occurrences (tokens : List Token) (w : List Char) : ℕ :=
  ((tokens.filter (fun t => !t.isPunctuation)).filter
    (fun t => t.text.map jsToLower = w)).length

/-- Combination of a previous association value with newly appended
positions, used to characterize `buildFreq` lookups: absent stays absent
when nothing is appended, otherwise the position lists concatenate. -/
def combineVal (o : Option (List ℕ)) (vs : List ℕ) : Option (List ℕ) :=
  match o, vs with
  | none, [] => none
  | o, vs => some (o.getD [] ++ vs)

end PPA

/-- Model of the Unicode letter property `\p{L}` (together with `\p{M}`,
which never occurs in the modelled inputs), restricted to the Latin
repertoire used by this repository: ASCII letters, the Latin-1 letters
(including ä ö ü ß and the accented letters of the mis-encoding table) and
Œ, œ, Ÿ. -/
def isLetterChar (c : Char) : Bool :=
  ('a' ≤ c ∧ c ≤ 'z') ∨ ('A' ≤ c ∧ c ≤ 'Z') ∨
    (192 ≤ c.toNat ∧ c.toNat ≤ 255 ∧ c.toNat ≠ 215 ∧ c.toNat ≠ 247) ∨
    c.toNat = 338 ∨ c.toNat = 339 ∨ c.toNat = 376

/-- Configuration `ANALYSIS_CONFIG.TEXT.MIN_LENGTH` (utils/constants). -/
def ANALYSIS_CONFIG_TEXT_MIN_LENGTH : ℕ := 10

/-- Configuration `ANALYSIS_CONFIG.TEXT.MAX_LENGTH` (utils/constants). -/
def ANALYSIS_CONFIG_TEXT_MAX_LENGTH : ℕ := 10000

/-- Configuration `ANALYSIS_CONFIG.THRESHOLDS.ENTITY_CONFIDENCE`
(utils/constants). -/
def ANALYSIS_CONFIG_THRESHOLDS_ENTITY_CONFIDENCE : ℚ := 0.75

/-- Configuration `ANALYSIS_CONFIG.THRESHOLDS.SIMILARITY_MEDIUM`
(utils/constants). -/
def ANALYSIS_CONFIG_THRESHOLDS_SIMILARITY_MEDIUM : ℚ := 0.5

namespace TP

/-- Token record of the textPreprocessing.js tokenizer. -/
structure Token where
  text : List Char
  index : ℕ
  position : ℕ
  isPunctuation : Bool
  length : ℕ
deriving DecidableEq

/-- The punctuation alternative `[.,!?;:—–\-"»«()…]` of the
textPreprocessing.js token regex (the source class spells the double quote
three times). -/
def tpPunct (c : Char) : Bool :=
  c = '.' ∨ c = ',' ∨ c = '!' ∨ c = '?' ∨ c = ';' ∨ c = ':' ∨ c = '—' ∨ c = '–' ∨
    c = '-' ∨ c = '"' ∨ c = '»' ∨ c = '«' ∨ c = '(' ∨ c = ')' ∨ c = '…'

/-- Scanner for the token regex
`/[\p{L}\p{M}]+(?:[-'][\p{L}\p{M}]+)*|[.,!?;:—–\-"»«()…]/gu` run with
`exec` in a loop: maximal-munch word matching (a hyphen or apostrophe
continues the word exactly when a letter follows), single-character
punctuation matches, all other characters skipped.  `cur` is the reversed
word being read, `ws` its start index, `idx` the current character index and
`pos` the next sequence position. -/
def tokGo : List Char → ℕ → ℕ → List Char → ℕ → List Token
  | [], _, pos, cur, ws =>
    if cur = [] then []
    else [{ text := cur.reverse, index := ws, position := pos,
            isPunctuation := false, length := cur.reverse.length }]
  | c :: rest, idx, pos, cur, ws =>
    if isLetterChar c then
      tokGo rest (idx + 1) pos (c :: cur) (if cur = [] then idx else ws)
    else if !cur.isEmpty && (c == '-' || c == Char.ofNat 39) &&
        (rest.head?.map isLetterChar).getD false then
      tokGo rest (idx + 1) pos (c :: cur) ws
    else
      let wordToks : List Token :=
        if cur = [] then []
        else [{ text := cur.reverse, index := ws, position := pos,
                isPunctuation := false, length := cur.reverse.length }]
      let pos2 := if cur = [] then pos else pos + 1
      if tpPunct c then
        wordToks ++
          ({ text := [c], index := idx, position := pos2,
             isPunctuation := true, length := 1 } :: tokGo rest (idx + 1) (pos2 + 1) [] 0)
      else wordToks ++ tokGo rest (idx + 1) pos2 [] 0

/-- `tokenizeText` (textPreprocessing.js): Unicode-aware fallback
tokenization into word and punctuation tokens. -/
def tokenizeText (text : List Char) : List Token :=
  if text = [] then [] else tokGo text 0 0 [] 0

/-- Sentence record of the textPreprocessing.js `sentenceSegmentation`. -/
structure Sentence where
  text : List Char
  index : ℕ
  wordCount : ℕ
deriving DecidableEq

/-- The per-line accumulation loop of the textPreprocessing.js
`sentenceSegmentation`: append each piece to the current candidate; when a
piece ends in punctuation-plus-whitespace, or at the last piece, emit the
trimmed candidate unless it contains an abbreviation substring (in which
case the candidate keeps accumulating); a trimmed non-empty leftover is
emitted after the loop. -/
def lineLoop : List (List Char) → List Char → List (List Char)
  | [], cur => if jsTrim cur = [] then [] else [jsTrim cur]
  | p :: rest, cur =>
    let cur2 := cur ++ p
    if endsWithPunctWs p || rest.isEmpty then
      if jsTrim cur2 ≠ [] ∧ !abbrevTest (jsTrim cur2) then jsTrim cur2 :: lineLoop rest []
      else lineLoop rest cur2
    else lineLoop rest cur2

/-- `sentenceSegmentation` (textPreprocessing.js): split into lines, then
segment each non-blank line at abbreviation-aware sentence boundaries; no
whole-text fallback.  The source assigns `index` as the running length of
the global result array, i.e. the final position, and computes `wordCount`
from the trimmed sentence text. -/
def sentenceSegmentation (text : List Char) : List Sentence :=
  if text = [] then []
  else
    let lines := splitOnChar '\n' text
    let texts := lines.foldl
      (fun acc line =>
        if jsTrim line = [] then acc
        else acc ++ lineLoop ((splitSent line).filter (fun s => !(jsTrim s).isEmpty)) [])
      []
    texts.enum.map (fun p => { text := p.2, index := p.1, wordCount := (jsSplitWs p.2).length })

/-- The silent-final-e test `/[^aeiouäöüy]e$/u` of `estimateSyllables`. -/
def silentE (word : List Char) : Bool :=
  match word.reverse with
  | 'e' :: c :: _ => !vowelChar c
  | _ => false

/-- `estimateSyllables` (textPreprocessing.js): per whitespace-separated
word, count maximal vowel runs (the diphthong alternatives of the source
regex `/[aeiouäöüy]+|ei|eu|au|äu|ie/gu` are unreachable because the
vowel-run branch is listed first and already matches at any vowel), drop
one syllable for a silent final e when more than one remains, floor at one
syllable per word, and sum. -/
def estimateSyllables (text : List Char) : ℕ :=
  if text = [] then 0
  else
    ((jsSplitWs (text.map jsToLower)).map (fun word =>
      if word.length = 0 then 0
      else
        let runs := countRuns vowelChar word
        let syl := if runs = 0 then 1 else runs
        let syl2 := if silentE word ∧ 1 < syl then syl - 1 else syl
        Nat.max 1 syl2)).sum

/-- The metrics record returned by the textPreprocessing.js
`calculateReadabilityMetrics`.  Fields that the source formats with
`toFixed` purely for display (`readingEase`, `wienerIndex`,
`avgSyllablesPerWord`, `avgWordLength`, `lexicalDensity`, percentages) are
modelled as the exact rational values; `avgWordsPerSentence` is modelled
with its two-decimal rounding because the source feeds the formatted string
back into the Wiener formula. -/
structure ReadabilityMetrics where
  wordCount : ℕ
  sentenceCount : ℕ
  syllableCount : ℕ
  uniqueWordCount : ℕ
  avgWordsPerSentence : ℚ
  avgSyllablesPerWord : ℚ
  avgWordLength : ℚ
  readingEase : ℚ
  wienerIndex : ℚ
  lexicalDensity : ℚ
  multiSyllablePercentage : ℚ
  longWordPercentage : ℚ
deriving DecidableEq

/-- `calculateReadabilityMetrics` (textPreprocessing.js): Flesch reading
ease in the German Amstad variant, clamped to [0, 100], and the Wiener
Sachtextformel, clamped to [0, 20], both from the rule-based tokenizer,
segmenter and syllable estimator. -/
def calculateReadabilityMetrics (text : List Char) : ReadabilityMetrics :=
  let sentences := sentenceSegmentation text
  let tokens := tokenizeText text
  let words := tokens.filter (fun t => !t.isPunctuation)
  let syllables := estimateSyllables text
  let wordCount := words.length
  let sentenceCount := Nat.max sentences.length 1
  let syllableCount := syllables
  let avgWordsPerSentence := round2 ((wordCount : ℚ) / (sentenceCount : ℚ))
  let avgSyllablesPerWord := (syllableCount : ℚ) / (Nat.max wordCount 1 : ℚ)
  let asl := (wordCount : ℚ) / (sentenceCount : ℚ)
  let asw := (syllableCount : ℚ) / (Nat.max wordCount 1 : ℚ)
  let fleschReading := 180 - asl - (58.5 * asw)
  let readingEase := max 0 (min 100 fleschReading)
  let multiSyllableWords := (words.filter (fun w => 3 ≤ estimateSyllables w.text)).length
  let longWords := (words.filter (fun w => 6 < w.text.length)).length
  let monoSyllableWords := (words.filter (fun w => estimateSyllables w.text = 1)).length
  let ms := ((multiSyllableWords : ℚ) / (Nat.max wordCount 1 : ℚ)) * 100
  let sl := avgWordsPerSentence
  let iw := ((longWords : ℚ) / (Nat.max wordCount 1 : ℚ)) * 100
  let es := ((monoSyllableWords : ℚ) / (Nat.max wordCount 1 : ℚ)) * 100
  let wstf := 0.1935 * ms + 0.1672 * sl + 0.1297 * iw - 0.0327 * es - 0.875
  let wienerIndex := max 0 (min 20 wstf)
  let uniqueWords := (words.map (fun w => w.text.map jsToLower)).dedup
  { wordCount := wordCount,
    sentenceCount := sentenceCount,
    syllableCount := syllableCount,
    uniqueWordCount := uniqueWords.length,
    avgWordsPerSentence := avgWordsPerSentence,
    avgSyllablesPerWord := avgSyllablesPerWord,
    avgWordLength := ((words.map (fun w => (w.text.length : ℚ))).sum / (Nat.max wordCount 1 : ℚ)),
    readingEase := readingEase,
    wienerIndex := wienerIndex,
    lexicalDensity := ((uniqueWords.length : ℚ) / (Nat.max wordCount 1 : ℚ)) * 100,
    multiSyllablePercentage := ms,
    longWordPercentage := iw }

/-- Claim-side definition: the raw, unclamped Wiener-Sachtextformel value
`0.1935*MS + 0.1672*SL + 0.1297*IW - 0.0327*ES - 0.875` as it arises inside
`calculateReadabilityMetrics` before clamping, with MS, IW, ES percentages
of the word count and SL the two-decimal-rounded average words per sentence
(the source reuses the `toFixed(2)` string for SL). -/
def wienerRaw (text : List Char) : ℚ :=
  let words := (tokenizeText text).filter (fun t => !t.isPunctuation)
  let wordCount := words.length
  let ms := (((words.filter (fun w => 3 ≤ estimateSyllables w.text)).length : ℚ) /
    (Nat.max wordCount 1 : ℚ)) * 100
  let sl := round2 ((wordCount : ℚ) / (Nat.max (sentenceSegmentation text).length 1 : ℚ))
  let iw := (((words.filter (fun w => 6 < w.text.length)).length : ℚ) /
    (Nat.max wordCount 1 : ℚ)) * 100
  let es := (((words.filter (fun w => estimateSyllables w.text = 1)).length : ℚ) /
    (Nat.max wordCount 1 : ℚ)) * 100
  0.1935 * ms + 0.1672 * sl + 0.1297 * iw - 0.0327 * es - 0.875

/-- Validation result object of the textPreprocessing.js `validateText`;
fields absent from a given return site are modelled as `none`. -/
structure ValidationResult where
  valid : Bool
  error : Option (List Char)
  errorCode : Option (List Char)
  length : Option ℕ
  letterCount : Option ℕ
  text : Option (List Char)
deriving DecidableEq

/-- `validateText` (textPreprocessing.js): reject empty input, trimmed
length below `ANALYSIS_CONFIG.TEXT.MIN_LENGTH` or above `MAX_LENGTH`, or
fewer than 5 letters (`\p{L}` matches); otherwise accept with the trimmed
text. -/
def validateText (text : List Char) : ValidationResult :=
  if text = [] then
    { valid := false, error := some (str "Text ist erforderlich"),
      errorCode := some (str "MISSING_TEXT"),
      length := none, letterCount := none, text := none }
  else
    let trimmed := jsTrim text
    if trimmed.length < ANALYSIS_CONFIG_TEXT_MIN_LENGTH then
      { valid := false, error := some (str "Text ist zu kurz (mind. 10 Zeichen)"),
        errorCode := some (str "TEXT_TOO_SHORT"),
        length := some trimmed.length, letterCount := none, text := none }
    else if ANALYSIS_CONFIG_TEXT_MAX_LENGTH < trimmed.length then
      { valid := false, error := some (str "Text ist zu lang (max. 10000 Zeichen)"),
        errorCode := some (str "TEXT_TOO_LONG"),
        length := some trimmed.length, letterCount := none, text := none }
    else
      let letterCount := (trimmed.filter isLetterChar).length
      if letterCount < 5 then
        { valid := false, error := some (str "Text muss mindestens 5 Buchstaben enthalten"),
          errorCode := some (str "INSUFFICIENT_LETTERS"),
          length := none, letterCount := some letterCount, text := none }
      else
        { valid := true, error := none, errorCode := none,
          length := some trimmed.length, letterCount := some letterCount,
          text := some trimmed }

end TP

/-- `RHYME_SCHEMES.AABB.label` (utils/constants). -/
def RHYME_SCHEMES_AABB : List Char := str "Paarreim"

/-- `RHYME_SCHEMES.ABAB.label` (utils/constants). -/
def RHYME_SCHEMES_ABAB : List Char := str "Kreuzreim"

/-- `RHYME_SCHEMES.ABBA.label` (utils/constants). -/
def RHYME_SCHEMES_ABBA : List Char := str "Umarmender Reim"

/-- `RHYME_SCHEMES.ABCABC.label` (utils/constants). -/
def RHYME_SCHEMES_ABCABC : List Char := str "Schweifreim"

/-- `RHYME_SCHEMES.FREE.label` (utils/constants). -/
def RHYME_SCHEMES_FREE : List Char := str "Freies Reimschema"

namespace SA

/-- Verse input of `analyzeRhymeScheme` (only the `text` and `index` fields
of the verse objects are consumed). -/
structure RVerse where
  text : List Char
  index : ℕ
deriving DecidableEq

/-- The trailing-punctuation class of
`lastWord.replace(/[.,!?;:]$/g, '')`; anchored at the end, the regex strips
exactly one trailing character of the class. -/
def trailingPunct (c : Char) : Bool :=
  c = '.' ∨ c = ',' ∨ c = '!' ∨ c = '?' ∨ c = ';' ∨ c = ':'

/-- `lastWord.replace(/[.,!?;:]$/g, '')`. -/
def stripTrailingPunct (w : List Char) : List Char :=
  match w.getLast? with
  | some c => if trailingPunct c then w.dropLast else w
  | none => w

/-- The character class `[a-zäöüß]` kept by `extractPhoneticEnding`. -/
def rhymeChar (c : Char) : Bool :=
  ('a' ≤ c ∧ c ≤ 'z') ∨ c = 'ä' ∨ c = 'ö' ∨ c = 'ü' ∨ c = 'ß'

/-- `extractPhoneticEnding` (syntaxAnalysis.js): lowercase, drop everything
outside `[a-zäöüß]`, keep the last 3 characters as the phonetic proxy. -/
def extractPhoneticEnding (word : List Char) : List Char :=
  let clean := (word.map jsToLower).filter rhymeChar
  clean.drop (clean.length - 3)

/-- One dynamic-programming cell step of `levenshteinDistance`: given the
remaining column characters of `str1`, the remaining previous row, the
previous row's diagonal entry, the entry just computed to the left and the
current `str2` character, produce the rest of the current row. -/
def levGo : List Char → List ℕ → ℕ → ℕ → Char → List ℕ
  | [], _, _, _, _ => []
  | _ :: _, [], _, _, _ => []
  | sc :: srest, pj :: prest, diag, left, tc =>
    let cur := if sc = tc then diag else Nat.min (Nat.min diag left) pj + 1
    cur :: levGo srest prest pj cur tc

/-- One row step of the `levenshteinDistance` matrix (rows run over `str2`,
columns over `str1`, as in the source). -/
def levNextRow (s : List Char) (prev : List ℕ) (tc : Char) : List ℕ :=
  match prev with
  | [] => []
  | p0 :: prest => (p0 + 1) :: levGo s prest p0 (p0 + 1) tc

/-- `levenshteinDistance` (syntaxAnalysis.js): the standard edit-distance
dynamic program; the result is `matrix[str2.length][str1.length]`, the last
entry of the last row. -/
def levenshteinDistance (s t : List Char) : ℕ :=
  (t.foldl (levNextRow s) (List.range (s.length + 1))).getLastD 0

/-- `calculatePhoneticSimilarity` (syntaxAnalysis.js): 1 for equal endings,
0 when either is empty, otherwise the normalized Levenshtein similarity
`1 - distance / maxLength`. -/
def calculatePhoneticSimilarity (e1 e2 : List Char) : ℚ :=
  if e1 = e2 then 1
  else if e1.length = 0 ∨ e2.length = 0 then 0
  else 1 - (levenshteinDistance e1 e2 : ℚ) / (Nat.max e1.length e2.length : ℚ)

/-- A rhyme pair as pushed by `analyzeRhymeScheme`; `similarity` carries the
value the source stores with `toFixed(3)`, modelled as `round3`. -/
structure RhymePair where
  verse1 : ℕ
  verse2 : ℕ
  word1 : List Char
  word2 : List Char
  similarity : ℚ
deriving DecidableEq

/-- The result object of `analyzeRhymeScheme`; `description` carries the
`label` of the matched `RHYME_SCHEMES` entry, `quality` the numeric value
of `calculateRhymeQuality`. -/
structure RhymeScheme where
  pattern : List (Option Char)
  scheme : List Char
  pairs : List RhymePair
  description : List Char
  quality : ℚ
deriving DecidableEq

/-- The verse-ending record built by `analyzeRhymeScheme`: last word of the
verse with one trailing punctuation character stripped, lowercased, plus
its phonetic ending proxy. -/
structure VerseEnding where
  verseIndex : ℕ
  word : List Char
  ending : List Char
deriving DecidableEq

/-- Ending extraction per verse (the body of the `verses.map` in
`analyzeRhymeScheme`). -/
def verseEndingOf (v : RVerse) : VerseEnding :=
  let ws := jsSplitWs (jsTrim v.text)
  let lastWord := stripTrailingPunct (ws.getLastD [])
  { verseIndex := v.index, word := lastWord.map jsToLower,
    ending := extractPhoneticEnding lastWord }

/-- The ending of the `i`-th verse record (source: `verseEndings[i].ending`;
the index is always in range). -/
def endingAt (endings : List VerseEnding) (i : ℕ) : List Char :=
  ((endings.get? i).getD { verseIndex := 0, word := [], ending := [] }).ending

/-- The lowercased last word of the `i`-th verse record
(source: `verseEndings[i].word`). -/
def wordAt (endings : List VerseEnding) (i : ℕ) : List Char :=
  ((endings.get? i).getD { verseIndex := 0, word := [], ending := [] }).word

/-- `identifyRhymeSchemeType` (syntaxAnalysis.js): classify the first four
letters of the scheme string. -/
def identifyRhymeSchemeType (scheme : List Char) : List Char :=
  let first4 := scheme.take 4
  if first4 = str "AABB" then RHYME_SCHEMES_AABB
  else if first4 = str "ABAB" then RHYME_SCHEMES_ABAB
  else if first4 = str "ABBA" then RHYME_SCHEMES_ABBA
  else if first4 = str "ABCA" then RHYME_SCHEMES_ABCABC
  else RHYME_SCHEMES_FREE

/-- `calculateRhymeQuality` (syntaxAnalysis.js); the source parses the
`toFixed(3)` pair similarities back with `parseFloat`, modelled by the
`round3` values stored in the pairs, and formats the result with
`toFixed(3)`, modelled as `round3`. -/
def calculateRhymeQuality (pairs : List RhymePair) (totalVerses : ℕ) : ℚ :=
  if totalVerses = 0 then 0
  else
    let rhymeRatio := ((pairs.length : ℚ) * 2) / (totalVerses : ℚ)
    let avgSimilarity :=
      if 0 < pairs.length then (pairs.map (fun p => p.similarity)).sum / (pairs.length : ℚ)
      else 0
    round3 (rhymeRatio * 0.5 + avgSimilarity * 0.5)

/-- The body of the outer labelling loop of `analyzeRhymeScheme` at index
`i`: skip already-labelled verses, otherwise assign the next unused letter
and give the same letter to every later unlabelled verse whose ending
clears the 0.7 similarity threshold. -/
def assignStep (endings : List VerseEnding)
    (st : List (Option Char) × Char × List RhymePair) (i : ℕ) :
    List (Option Char) × Char × List RhymePair :=
  let (pattern, label, pairs) := st
  if (pattern.getD i none).isSome then st
  else
    let pattern1 := pattern.set i (some label)
    let n := endings.length
    let inner := (List.range' (i + 1) (n - (i + 1))).foldl
      (fun (st2 : List (Option Char) × List RhymePair) j =>
        let (pat, prs) := st2
        if (pat.getD j none).isSome then st2
        else
          let sim := calculatePhoneticSimilarity (endingAt endings i) (endingAt endings j)
          if (0.7 : ℚ) < sim then
            (pat.set j (some label),
             prs ++ [{ verse1 := i, verse2 := j, word1 := wordAt endings i,
                       word2 := wordAt endings j, similarity := round3 sim }])
          else st2)
      (pattern1, pairs)
    (inner.1, Char.ofNat (label.toNat + 1), inner.2)

/-- `analyzeRhymeScheme` (syntaxAnalysis.js): greedy single-pass rhyme
labelling by phonetic-ending similarity; `none` for fewer than two verses.
The unused `tokens` parameter of the source is omitted, and the `A`, `B`,
… labels advance by character code as in the source. -/
def analyzeRhymeScheme (verses : List RVerse) : Option RhymeScheme :=
  if verses.length < 2 then none
  else
    let verseEndings := verses.map verseEndingOf
    let init : List (Option Char) × Char × List RhymePair :=
      (List.replicate verses.length none, 'A', [])
    let final := (List.range verses.length).foldl (assignStep verseEndings) init
    let pattern := final.1
    let schemeString := pattern.filterMap id
    some { pattern := pattern, scheme := schemeString, pairs := final.2.2,
           description := identifyRhymeSchemeType schemeString,
           quality := calculateRhymeQuality final.2.2 verses.length }

end SA

namespace TA

/-- Annotated token shape of tokenAnalysis.js (`analyzeTokens` initializes
the annotation fields to null before NER runs). -/
structure NToken where
  text : List Char
  position : ℕ
  isPunctuation : Bool
  entity : Option (List Char)
  entityType : Option (List Char)
  entityScore : Option ℚ
  entityStart : Option ℕ
  entityEnd : Option ℕ
deriving DecidableEq

/-- An entity result delivered by the external NER collaborator
(`Entity = {word, label, score, start, end}` in the spec); `stop` models
the reserved field name `end`. -/
structure Entity where
  word : List Char
  entity_group : Option (List Char)
  entity : Option (List Char)
  score : ℚ
  start : ℕ
  stop : ℕ
deriving DecidableEq

/-- JS string truthiness: null/undefined and the empty string are falsy. -/
def jsTruthy (o : Option (List Char)) : Option (List Char) :=
  match o with
  | some s => if s = [] then none else some s
  | none => none

/-- JS `a || b` on nullable strings. -/
def jsOrStr (a b : Option (List Char)) : Option (List Char) :=
  match jsTruthy a with
  | some s => some s
  | none => jsTruthy b

/-- `entity.word.replace(/^##/, '')`: strip one leading BERT sub-token
marker. -/
def stripHash (w : List Char) : List Char :=
  if (str "##").isPrefixOf w then w.drop 2 else w

/-- The label cleanup of `normalizeEntityType`: strip one leading BIO
prefix `B-` or `I-` (anchored regex replace with the empty string). -/
def stripBIO (l : List Char) : List Char :=
  match l with
  | 'B' :: '-' :: rest => rest
  | 'I' :: '-' :: rest => rest
  | _ => l

/-- JS `String.prototype.toUpperCase`, restricted to ASCII (sufficient for
the entity label repertoire). -/
def jsToUpper (c : Char) : Char :=
  if 'a' ≤ c ∧ c ≤ 'z' then Char.ofNat (c.toNat - 32) else c

/-- The label-normalization `mapping` object of `normalizeEntityType`. -/
def entityMapping (k : List Char) : Option (List Char) :=
  if k = str "PER" ∨ k = str "PERSON" then some (str "PER")
  else if k = str "LOC" ∨ k = str "LOCATION" then some (str "LOC")
  else if k = str "ORG" ∨ k = str "ORGANIZATION" ∨ k = str "ORGANISATION" then some (str "ORG")
  else if k = str "MISC" ∨ k = str "MISCELLANEOUS" then some (str "MISC")
  else none

/-- `ENTITY_LABELS[key]?.label` (utils/constants). -/
def entityLabelsLabel (key : List Char) : Option (List Char) :=
  if key = str "PER" then some (str "Person")
  else if key = str "LOC" then some (str "Ort")
  else if key = str "ORG" then some (str "Organisation")
  else if key = str "MISC" then some (str "Diverses")
  else if key = str "DATE" then some (str "Datum")
  else if key = str "TIME" then some (str "Uhrzeit")
  else none

/-- `normalizeEntityType` (tokenAnalysis.js). -/
def normalizeEntityType (entityLabel : Option (List Char)) : Option (List Char) :=
  match jsTruthy entityLabel with
  | none => none
  | some l =>
    let clean := stripBIO l
    let normalized :=
      match entityMapping (clean.map jsToUpper) with
      | some m => m
      | none => clean
    match entityLabelsLabel normalized with
    | some lab => some lab
    | none => some clean

/-- One iteration of the entity loop of `applyNER` (tokenAnalysis.js):
entities below `ANALYSIS_CONFIG.THRESHOLDS.ENTITY_CONFIDENCE` are skipped
entirely; otherwise every non-punctuation token whose lowercased text is
exactly the lowercased (de-subtokenized, trimmed) entity surface form gets
the entity attached.  The source iterates token indices and reassigns
`annotated[i]`; since the update depends only on the token itself this is a
map. -/
def applyNERStep (tokens : List NToken) (e : Entity) : List NToken :=
  if e.score < ANALYSIS_CONFIG_THRESHOLDS_ENTITY_CONFIDENCE then tokens
  else
    let entityWord := jsTrim (stripHash e.word)
    tokens.map (fun token =>
      if token.isPunctuation then token
      else if token.text.map jsToLower = entityWord.map jsToLower then
        { token with
          entity := jsOrStr e.entity_group e.entity,
          entityType := normalizeEntityType (jsOrStr e.entity_group e.entity),
          entityScore := some e.score,
          entityStart := some e.start,
          entityEnd := some e.stop }
      else token)

/-- `applyNER` (tokenAnalysis.js), with the collaborator's result list as
the `entities` parameter. -/
def applyNER (tokens : List NToken) (entities : List Entity) : List NToken :=
  entities.foldl applyNERStep tokens

end TA

namespace SemA

/-- A word-embedding record handed to the semantic-field clustering
(`{word, position, embedding}`; the unused `token`, `posTag` and
`entityType` fields are omitted).  Embedding coordinates are rationals. -/
structure WordEmbedding where
  word : List Char
  position : ℕ
  embedding : List ℚ
deriving DecidableEq

/-- A similarity record as produced by `calculateSemanticSimilarities` and
consumed by `identifySemanticFields` (only `word1`, `word2` and
`similarity` are read there). -/
structure SimilarityEntry where
  word1 : List Char
  word2 : List Char
  similarity : ℚ
deriving DecidableEq

/-- A semantic-field cluster as returned by `identifySemanticFields`. -/
structure SemanticField where
  theme : List Char
  words : List (List Char)
  size : ℕ
  representatives : List (List Char)
  coherence : ℚ
deriving DecidableEq

/-- `graph.get(k).add(v)` on the insertion-ordered `Map` of `Set`s: append
`v` to the neighbor set of `k` unless already present.  The source assumes
`k` is present (the similarity entries only mention embedded words); an
absent key is a no-op here where the source would throw. -/
def addNeighbor (g : List (List Char × List (List Char))) (k v : List Char) :
    List (List Char × List (List Char)) :=
  g.map (fun e => if e.1 = k then (e.1, if v ∈ e.2 then e.2 else e.2 ++ [v]) else e)

/-- The neighbor set of `k` in the similarity graph. -/
def neighborsOf (g : List (List Char × List (List Char))) (k : List Char) :
    List (List Char) :=
  ((g.find? (fun e => e.1 == k)).map (fun e => e.2)).getD []

/-- The BFS while-loop of `identifySemanticFields`: pop the queue head;
already-visited words are skipped, otherwise the word is visited, added to
the cluster, and its unvisited neighbors are enqueued.  `fuel` bounds the
number of loop iterations; the callers pass a bound that exceeds the
maximal possible number of dequeues (every enqueue is either the initial
word or a neighbor-list entry of a freshly visited word), so the fuel never
runs out on the source's reachable states. -/
def bfs (g : List (List Char × List (List Char))) :
    ℕ → List (List Char) → List (List Char) → List (List Char) →
    List (List Char) × List (List Char)
  | 0, _, visited, cluster => (cluster, visited)
  | _ + 1, [], visited, cluster => (cluster, visited)
  | fuel + 1, w :: queue, visited, cluster =>
    if w ∈ visited then bfs g fuel queue visited cluster
    else
      let visited2 := visited ++ [w]
      let cluster2 := cluster ++ [w]
      let ns := (neighborsOf g w).filter (fun n => n ∉ visited2)
      bfs g fuel (queue ++ ns) visited2 cluster2

/-- The connected-components loop of `identifySemanticFields`: run one BFS
from every not-yet-visited word, in graph insertion order. -/
def components (g : List (List Char × List (List Char))) : List (List (List Char)) :=
  let fuel := g.length + (g.map (fun e => e.2.length)).sum + 1
  ((g.map (fun e => e.1)).foldl
    (fun (st : List (List Char) × List (List (List Char))) w =>
      if w ∈ st.1 then st
      else
        let r := bfs g fuel [w] st.1 []
        (r.2, st.2 ++ [r.1]))
    ([], [])).2

/-- `calculateCentroid` (semanticAnalysis.js): coordinate-wise mean over
the first embedding's dimension (the source reads `emb[i]` assuming equal
dimensions; missing coordinates are read as 0 here, and the `null` the
source returns for an empty list is modelled as the empty vector). -/
def calculateCentroid (embeddings : List (List ℚ)) : List ℚ :=
  match embeddings with
  | [] => []
  | e0 :: _ =>
    (List.range e0.length).map
      (fun i => (embeddings.map (fun v => v.getD i 0)).sum / (embeddings.length : ℚ))

/-- Sum of `cosSim` over unordered pairs, in the source's double-loop
order. -/
def pairSum (cosSim : List ℚ → List ℚ → ℚ) : List (List ℚ) → ℚ
  | [] => 0
  | x :: rest => (rest.map (cosSim x)).sum + pairSum cosSim rest

/-- `calculateClusterCoherence` (semanticAnalysis.js): mean pairwise
similarity, 1 for singleton input, formatted by the source with
`toFixed(3)` (modelled as `round3`). -/
def calculateClusterCoherence (cosSim : List ℚ → List ℚ → ℚ)
    (embeddings : List (List ℚ)) : ℚ :=
  if embeddings.length < 2 then 1
  else
    let count := embeddings.length * (embeddings.length - 1) / 2
    if 0 < count then round3 (pairSum cosSim embeddings / (count : ℚ)) else 0

/-- `wordEmbeddings.find(e => e.word === w).embedding` (the word is always
present in the callers; an absent word yields the empty vector here where
the source would throw). -/
def embeddingOf (wordEmbeddings : List WordEmbedding) (w : List Char) : List ℚ :=
  ((wordEmbeddings.find? (fun e => e.word == w)).map (fun e => e.embedding)).getD []

/-- `representatives.join(', ')`. -/
def joinComma (l : List (List Char)) : List Char :=
  (l.intersperse (str ", ")).flatten

/-- `identifySemanticFields` (semanticAnalysis.js): below 3 word embeddings
return no fields at all; otherwise build the similarity graph (edges above
`ANALYSIS_CONFIG.THRESHOLDS.SIMILARITY_MEDIUM`), take connected components
of size ≥ 2, rank up to 3 representatives by similarity to the centroid,
attach coherence, sort by size descending and keep the top 10.

The source computes centroid similarities and coherence with its
`cosineSimilarity` (floating-point `dot/(√·√)`); since square roots leave
ℚ, that collaborator-style numeric kernel is a parameter `cosSim` here, so
every statement proved below holds for any similarity function including
the source's. -/
def identifySemanticFields (cosSim : List ℚ → List ℚ → ℚ)
    (wordEmbeddings : List WordEmbedding) (similarities : List SimilarityEntry) :
    List SemanticField :=
  if wordEmbeddings.length < 3 then []
  else
    let graph0 := wordEmbeddings.map (fun e => (e.word, ([] : List (List Char))))
    let graph := similarities.foldl
      (fun g s =>
        if ANALYSIS_CONFIG_THRESHOLDS_SIMILARITY_MEDIUM < s.similarity then
          addNeighbor (addNeighbor g s.word1 s.word2) s.word2 s.word1
        else g)
      graph0
    let clusters := (components graph).foldl
      (fun (acc : List SemanticField) cluster =>
        if 2 ≤ cluster.length then
          let clusterEmbeddings := cluster.map (embeddingOf wordEmbeddings)
          let centroid := calculateCentroid clusterEmbeddings
          let representatives :=
            (((cluster.map (fun w => (w, cosSim (embeddingOf wordEmbeddings w) centroid))).mergeSort
              (fun a b => decide (b.2 ≤ a.2))).take 3).map (fun r => r.1)
          acc ++ [{ theme := joinComma representatives, words := cluster,
                    size := cluster.length, representatives := representatives,
                    coherence := calculateClusterCoherence cosSim clusterEmbeddings }]
        else acc)
      []
    ((clusters.mergeSort (fun a b => decide (b.size ≤ a.size))).take 10)

/-- The cosine similarity of the source, specialized to L2-normalized
embedding vectors: the embedding provider returns unit-length vectors
(spec §6), for which `dot/(‖a‖·‖b‖)` is exactly the dot product, so no
square root is needed.  Used to instantiate the `cosSim` parameter in
concrete statements. -/
def dotSimilarity (a b : List ℚ) : ℚ :=
  (List.zipWith (fun x y => x * y) a b).sum

end SemA

/-! ## Theorems -/

set_option maxRecDepth 10000

theorem replaceAllAux_of_not_contains (pat rep : List Char) :
    ∀ l : List Char, containsSub pat l = false → replaceAllAux pat rep l 0 = l := by
  intro l
  induction l with
  | nil => intro _; rfl
  | cons c rest ih =>
    intro h
    simp only [containsSub, Bool.or_eq_false_iff] at h
    simp only [replaceAllAux, h.1, Bool.false_eq_true, if_false, ih h.2]

theorem replaceAll_of_not_contains (pat rep l : List Char)
    (h : containsSub pat l = false) : replaceAll pat rep l = l := by
  unfold replaceAll
  split
  · rfl
  · exact replaceAllAux_of_not_contains pat rep l h

theorem foldl_fixes_of_clean :
    ∀ (fixes : List (List Char × List Char)) (s : List Char),
      (∀ p ∈ fixes, containsSub p.1 s = false) →
      fixes.foldl (fun acc p => replaceAll p.1 p.2 acc) s = s := by
  intro fixes
  induction fixes with
  | nil => intro s _; rfl
  | cons f rest ih =>
    intro s h
    simp only [List.foldl_cons]
    rw [replaceAll_of_not_contains f.1 f.2 s (h f (List.mem_cons_self f rest))]
    exact ih s (fun p hp => h p (List.mem_cons_of_mem f hp))

/-- C2 (corrected, counterexample): the normalizer is not idempotent.  On
the input `"ÃÂ»"` the fix `'Â»' → '»'` creates a fresh occurrence of the
earlier pattern `'Ã»'`, so one pass yields `"Ã»"` while a second pass turns
that into `"û"`. -/
theorem normalizeUTF8_not_idempotent :
    normalizeUTF8 (str "ÃÂ»") = str "Ã»" ∧
    normalizeUTF8 (normalizeUTF8 (str "ÃÂ»")) = str "û" ∧
    normalizeUTF8 (normalizeUTF8 (str "ÃÂ»")) ≠ normalizeUTF8 (str "ÃÂ»") := by
  decide

/-- C2 (amended): empty input is returned unchanged, and `normalizeUTF8` is
idempotent on every string whose one-pass result contains no occurrence of
a mis-encoding pattern (which fails for inputs such as `"ÃÂ»"`, where a
later replacement manufactures an earlier pattern). -/
theorem normalizeUTF8_idempotent_on_clean :
    (∀ t : List Char,
        (∀ p ∈ encodingFixes, containsSub p.1 (normalizeUTF8 t) = false) →
        normalizeUTF8 (normalizeUTF8 t) = normalizeUTF8 t) ∧
    normalizeUTF8 [] = [] := by
  constructor
  · intro t h
    by_cases h0 : normalizeUTF8 t = []
    · rw [h0]
      rfl
    · conv_lhs => rw [normalizeUTF8, if_neg h0]
      show nfc (encodingFixes.foldl (fun acc p => replaceAll p.1 p.2 acc) (normalizeUTF8 t)) =
        normalizeUTF8 t
      rw [foldl_fixes_of_clean encodingFixes (normalizeUTF8 t) h]
      rfl
  · rfl

theorem normalizeUTF8_idempotent_on_clean_witness :
    normalizeUTF8 (normalizeUTF8 (str "Hallo Welt")) = normalizeUTF8 (str "Hallo Welt") :=
  normalizeUTF8_idempotent_on_clean.1 (str "Hallo Welt") (by decide)

/-- C10 (confirmed): semantic-field clustering returns the empty list
whenever fewer than 3 word embeddings are supplied, for any similarity
function and any similarity-entry list — so with exactly 2 embedded words
no semantic field is ever produced, even when their similarity exceeds the
clustering threshold. -/
theorem identifySemanticFields_needs_three :
    ∀ (cosSim : List ℚ → List ℚ → ℚ) (wordEmbeddings : List SemA.WordEmbedding)
      (similarities : List SemA.SimilarityEntry),
      wordEmbeddings.length < 3 →
      SemA.identifySemanticFields cosSim wordEmbeddings similarities = [] := by
  intro cosSim wordEmbeddings similarities h
  simp only [SemA.identifySemanticFields, if_pos h]

theorem identifySemanticFields_needs_three_witness :
    SemA.identifySemanticFields SemA.dotSimilarity
        [⟨ str "Haus", 0, [1, 0]⟩, ⟨ str "Heim", 1, [1, 0]⟩]
        [⟨ str "Haus", str "Heim", 9/10⟩] = [] ∧
    ANALYSIS_CONFIG_THRESHOLDS_SIMILARITY_MEDIUM < SemA.dotSimilarity [1, 0] [1, 0] ∧
    ANALYSIS_CONFIG_THRESHOLDS_SIMILARITY_MEDIUM < (9/10 : ℚ) :=
  ⟨identifySemanticFields_needs_three SemA.dotSimilarity
      [⟨ str "Haus", 0, [1, 0]⟩, ⟨ str "Heim", 1, [1, 0]⟩]
      [⟨ str "Haus", str "Heim", 9/10⟩] (by decide),
    by with_unfolding_all decide, by with_unfolding_all decide⟩

/-- C9 (confirmed): input validation is a boundary check at the configured
minimum length 10: any text whose trimmed length is 9 is rejected with the
`TEXT_TOO_SHORT` validation error, and any text whose trimmed length is
exactly 10 that meets the minimum-letters requirement (at least 5 `\p{L}`
characters) is accepted. -/
theorem validateText_boundary :
    (∀ t : List Char, (jsTrim t).length = 9 →
        (TP.validateText t).valid = false ∧
        (TP.validateText t).errorCode = some (str "TEXT_TOO_SHORT")) ∧
    (∀ t : List Char, (jsTrim t).length = 10 →
        5 ≤ ((jsTrim t).filter isLetterChar).length →
        (TP.validateText t).valid = true) := by
  constructor
  · intro t h
    have ht : t ≠ [] := by
      intro h0
      rw [h0] at h
      simp [jsTrim] at h
    have hlt : (jsTrim t).length < ANALYSIS_CONFIG_TEXT_MIN_LENGTH := by
      rw [h, ANALYSIS_CONFIG_TEXT_MIN_LENGTH]
      omega
    simp [TP.validateText, ht, hlt]
  · intro t h hl
    have ht : t ≠ [] := by
      intro h0
      rw [h0] at h
      simp [jsTrim] at h
    have h1 : ¬ (jsTrim t).length < ANALYSIS_CONFIG_TEXT_MIN_LENGTH := by
      rw [h, ANALYSIS_CONFIG_TEXT_MIN_LENGTH]
      omega
    have h2 : ¬ ANALYSIS_CONFIG_TEXT_MAX_LENGTH < (jsTrim t).length := by
      rw [h, ANALYSIS_CONFIG_TEXT_MAX_LENGTH]
      omega
    have h3 : ¬ ((jsTrim t).filter isLetterChar).length < 5 := by omega
    simp [TP.validateText, ht, h1, h2, h3]

theorem validateText_boundary_witness :
    ((TP.validateText (str "abcdefghi")).valid = false ∧
      (TP.validateText (str "abcdefghi")).errorCode = some (str "TEXT_TOO_SHORT")) ∧
    (TP.validateText (str "abcdefghij")).valid = true :=
  ⟨validateText_boundary.1 (str "abcdefghi") (by decide),
    validateText_boundary.2 (str "abcdefghij") (by decide) (by decide)⟩

/-- C1 (corrected, counterexample): on the four verses ending in "Bäche",
"Blick", "Hoffnungsglück", "Schwäche" the rhyme analyzer does not return
the letter pattern ABBA; it returns ABCA. -/
theorem analyzeRhymeScheme_not_ABBA :
    (SA.analyzeRhymeScheme
        [⟨ str "Bäche", 0⟩, ⟨ str "Blick", 1⟩,
          ⟨ str "Hoffnungsglück", 2⟩, ⟨ str "Schwäche", 3⟩]).map (fun r => r.scheme) =
      some (str "ABCA") ∧
    str "ABCA" ≠ str "ABBA" := by
  with_unfolding_all decide

/-- C1 (amended): on those verses the analyzer groups verse 0 with verse 3
(endings "che"/"che", similarity 1 > 0.7) but gives verses 1 and 2 distinct
letters, because the endings "ick" and "ück" have normalized Levenshtein
similarity 2/3, which does not exceed the 0.7 threshold; the resulting
pattern is ABCA with the single rhyme pair (0, 3). -/
theorem analyzeRhymeScheme_ABCA :
    (SA.analyzeRhymeScheme
        [⟨ str "Bäche", 0⟩, ⟨ str "Blick", 1⟩,
          ⟨ str "Hoffnungsglück", 2⟩, ⟨ str "Schwäche", 3⟩]).map
        (fun r => (r.pattern, r.scheme, r.pairs.map (fun p => (p.verse1, p.verse2, p.similarity)))) =
      some ([some 'A', some 'B', some 'C', some 'A'], str "ABCA", [(0, 3, 1)]) ∧
    SA.extractPhoneticEnding (str "Blick") = str "ick" ∧
    SA.extractPhoneticEnding (str "Hoffnungsglück") = str "ück" ∧
    SA.extractPhoneticEnding (str "Bäche") = str "che" ∧
    SA.extractPhoneticEnding (str "Schwäche") = str "che" ∧
    SA.calculatePhoneticSimilarity (str "ick") (str "ück") = 2/3 ∧
    ¬ ((0.7 : ℚ) < 2/3) ∧
    SA.calculatePhoneticSimilarity (str "che") (str "che") = 1 := by
  refine ⟨?_, ?_, ?_, ?_, ?_, ?_, ?_, ?_⟩ <;> with_unfolding_all decide

/-- C3 (confirmed): for any input, the readability scorer computes the
reading-ease score as 180 minus the average number of words per sentence
minus 58.5 times the average number of syllables per word, clamped to
[0, 100], with `max(sentenceCount, 1)` and `max(wordCount, 1)` as the
denominators of the averages; in particular the reported score always lies
in [0, 100]. -/
theorem fleschReadingEase_formula :
    (∀ text : List Char,
        (TP.calculateReadabilityMetrics text).readingEase =
          max 0 (min 100
            (180 -
              ((((TP.tokenizeText text).filter (fun t => !t.isPunctuation)).length : ℚ) /
                (Nat.max (TP.sentenceSegmentation text).length 1 : ℚ)) -
              58.5 * ((TP.estimateSyllables text : ℚ) /
                (Nat.max ((TP.tokenizeText text).filter (fun t => !t.isPunctuation)).length 1 : ℚ))))) ∧
    (∀ text : List Char,
        0 ≤ (TP.calculateReadabilityMetrics text).readingEase ∧
        (TP.calculateReadabilityMetrics text).readingEase ≤ 100) := by
  constructor
  · intro text
    rfl
  · intro text
    constructor
    · exact le_max_left 0 _
    · exact max_le (by norm_num) (min_le_left 100 _)

/-- C4 (corrected, counterexample): the reported Wiener index is not the
raw formula value.  For the input "Ja." the raw Wiener-Sachtextformel value
is -3.9778, but `calculateReadabilityMetrics` reports 0: the value is
clamped to [0, 20] before being reported, so out-of-range raw values are
discarded rather than surfaced. -/
theorem wienerIndex_raw_value_counterexample :
    (TP.calculateReadabilityMetrics (str "Ja.")).wienerIndex = 0 ∧
    TP.wienerRaw (str "Ja.") < 0 ∧
    (TP.calculateReadabilityMetrics (str "Ja.")).wienerIndex ≠ TP.wienerRaw (str "Ja.") := by
  have h1 : (TP.calculateReadabilityMetrics (str "Ja.")).wienerIndex = 0 := by
    with_unfolding_all decide
  have h2 : TP.wienerRaw (str "Ja.") < 0 := by
    with_unfolding_all decide
  exact ⟨h1, h2, by rw [h1]; exact ne_of_gt h2⟩

/-- C4 (amended): for any input the reported Wiener index equals the
formula value `0.1935*MS + 0.1672*SL + 0.1297*IW - 0.0327*ES - 0.875` —
with MS, IW, ES percentages of words with ≥ 3 syllables, words longer than
6 characters, and 1-syllable words, and SL the two-decimal-rounded average
words per sentence — clamped to [0, 20]; the raw (unclamped) value is not
reported. -/
theorem wienerIndex_clamped_formula :
    ∀ text : List Char,
      (TP.calculateReadabilityMetrics text).wienerIndex =
        max 0 (min 20 (TP.wienerRaw text)) := by
  intro text
  rfl

theorem length_ite_isEmpty_min_one {α : Type} (L : List α) (x : α) :
    1 ≤ (if L.isEmpty then [x] else L).length := by
  cases L with
  | nil => simp
  | cons a rest => simp

/-- C6 (confirmed): sentence segmentation returns at least one sentence for
every non-empty input (the part_000 implementation falls back to the whole
trimmed text when nothing was emitted), and the input "Dr. Müller kam.",
whose only sentence-terminal punctuation follows the listed abbreviation
"Dr", is segmented into exactly one sentence — by the part_000 segmenter
and by the textPreprocessing.js segmenter alike. -/
theorem sentenceSegmentation_min_one_and_abbrev :
    (∀ t : List Char, t ≠ [] → 1 ≤ (PPB.sentenceSegmentation t).length) ∧
    (PPB.sentenceSegmentation (str "Dr. Müller kam.")).map (fun s => s.text) =
      [str "Dr. Müller kam."] ∧
    (TP.sentenceSegmentation (str "Dr. Müller kam.")).map (fun s => s.text) =
      [str "Dr. Müller kam."] := by
  refine ⟨?_, ?_, ?_⟩
  · intro t ht
    simp only [PPB.sentenceSegmentation, if_neg ht]
    exact length_ite_isEmpty_min_one _ _
  · decide
  · decide

theorem sentenceSegmentation_min_one_witness :
    1 ≤ (PPB.sentenceSegmentation (str "x")).length :=
  sentenceSegmentation_min_one_and_abbrev.1 (str "x") (by decide)

theorem detectVersesLines_texts :
    ∀ (lines : List (List Char)) (v s c : ℕ),
      (PPB.detectVersesLines lines v s c).map (fun x => x.text) =
        (lines.map jsTrim).filter (fun l => !l.isEmpty) := by
  intro lines
  induction lines with
  | nil => intro v s c; rfl
  | cons a rest ih =>
    intro v s c
    by_cases h : jsTrim a = []
    · by_cases hc : 0 < c
      · simp [PPB.detectVersesLines, h, hc, ih v (s + 1) 0]
      · simp [PPB.detectVersesLines, h, hc, ih v s c]
    · simp [PPB.detectVersesLines, h, ih (v + 1) s (c + 1), List.filter_cons,
        List.isEmpty_iff]

theorem detectVersesLines_cons_nonblank (a : List Char) (rest : List (List Char))
    (v s c : ℕ) (h : jsTrim a ≠ []) :
    PPB.detectVersesLines (a :: rest) v s c =
      { text := jsTrim a, index := v, stanza := s, verseInStanza := c,
        length := (jsTrim a).length,
        wordCount := ((jsSplitWs (jsTrim a)).filter (fun w => 0 < w.length)).length,
        syllables := PPB.estimateSyllables (jsTrim a) } ::
        PPB.detectVersesLines rest (v + 1) s (c + 1) := by
  rw [PPB.detectVersesLines]
  rw [if_neg h]

theorem detectVersesLines_cons_blank (a : List Char) (rest : List (List Char))
    (v s c : ℕ) (h : jsTrim a = []) :
    PPB.detectVersesLines (a :: rest) v s c =
      if 0 < c then PPB.detectVersesLines rest v (s + 1) 0
      else PPB.detectVersesLines rest v s c := by
  rw [PPB.detectVersesLines]
  rw [if_pos h]

theorem detectVersesLines_break :
    ∀ (pre : List (List Char)) (blank : List Char) (post : List (List Char)) (v s c : ℕ),
      pre ≠ [] → (∀ l ∈ pre, jsTrim l ≠ []) → jsTrim blank = [] →
      PPB.detectVersesLines (pre ++ blank :: post) v s c =
        PPB.detectVersesLines pre v s c ++
          PPB.detectVersesLines post (v + pre.length) (s + 1) 0 := by
  intro pre
  induction pre with
  | nil => intro blank post v s c hne _ _; exact absurd rfl hne
  | cons a rest ih =>
    intro blank post v s c _ hnb hb
    have ha : jsTrim a ≠ [] := hnb a (List.mem_cons_self a rest)
    cases rest with
    | nil =>
      rw [List.cons_append, List.nil_append,
        detectVersesLines_cons_nonblank a (blank :: post) v s c ha,
        detectVersesLines_cons_blank blank post (v + 1) s (c + 1) hb,
        if_pos (Nat.succ_pos c),
        detectVersesLines_cons_nonblank a [] v s c ha]
      simp [PPB.detectVersesLines]
    | cons b rest2 =>
      have hb2 : (b :: rest2 : List (List Char)) ≠ [] := by simp
      have hnb2 : ∀ l ∈ b :: rest2, jsTrim l ≠ [] := fun l hl => hnb l (List.mem_cons_of_mem a hl)
      rw [List.cons_append,
        detectVersesLines_cons_nonblank a (b :: rest2 ++ blank :: post) v s c ha,
        ih blank post (v + 1) s (c + 1) hb2 hnb2 hb,
        detectVersesLines_cons_nonblank a (b :: rest2) v s c ha]
      have harith : v + 1 + (b :: rest2).length = v + (a :: b :: rest2).length := by
        simp only [List.length_cons]
        omega
      rw [harith]
      simp

/-- C5 (confirmed): on the input "Zeile1\nZeile2\n\nZeile3" the verse
detector yields exactly 3 verses spanning 2 stanzas, with (stanza,
verse-in-stanza) pairs (0,0), (0,1), (1,0) in order; in general the verses
are exactly the non-blank (trimmed) lines in order, and a line containing
only whitespace that closes a non-empty stanza increments the stanza
counter and resets the in-stanza verse counter for everything after it. -/
theorem detectVerses_stanza_structure :
    ((PPB.detectVerses (str "Zeile1\nZeile2\n\nZeile3")).map
        (fun v => (v.stanza, v.verseInStanza)) = [(0, 0), (0, 1), (1, 0)] ∧
      (PPB.detectVerses (str "Zeile1\nZeile2\n\nZeile3")).length = 3 ∧
      ((PPB.detectVerses (str "Zeile1\nZeile2\n\nZeile3")).map (fun v => v.stanza)).dedup =
        [0, 1]) ∧
    (∀ text : List Char,
      (PPB.detectVerses text).map (fun v => v.text) =
        ((splitOnChar '\n' (normalizeUTF8 text)).map jsTrim).filter (fun l => !l.isEmpty)) ∧
    (∀ (pre : List (List Char)) (blank : List Char) (post : List (List Char)) (v s c : ℕ),
      pre ≠ [] → (∀ l ∈ pre, jsTrim l ≠ []) → jsTrim blank = [] →
      PPB.detectVersesLines (pre ++ blank :: post) v s c =
        PPB.detectVersesLines pre v s c ++
          PPB.detectVersesLines post (v + pre.length) (s + 1) 0) := by
  refine ⟨⟨by decide, by decide, by decide⟩, ?_, detectVersesLines_break⟩
  intro text
  by_cases ht : text = []
  · subst ht
    decide
  · rw [PPB.detectVerses, if_neg ht]
    exact detectVersesLines_texts (splitOnChar '\n' (normalizeUTF8 text)) 0 0 0

theorem detectVerses_stanza_structure_witness :
    PPB.detectVersesLines ([str "Zeile1"] ++ ([] : List Char) :: [str "Zeile3"]) 0 0 0 =
      PPB.detectVersesLines [str "Zeile1"] 0 0 0 ++
        PPB.detectVersesLines [str "Zeile3"] (0 + [str "Zeile1"].length) (0 + 1) 0 :=
  detectVerses_stanza_structure.2.2 [str "Zeile1"] [] [str "Zeile3"] 0 0 0
    (by decide) (by decide) (by decide)

theorem applyNER_attached_aux :
    ∀ (entities : List TA.Entity) (tokens : List TA.NToken) (tok : TA.NToken),
      tok ∈ TA.applyNER tokens entities → tok.entityScore ≠ none →
      (∃ t ∈ tokens, t.text = tok.text ∧ t.entityScore ≠ none) ∨
      ∃ e ∈ entities, ¬(e.score < ANALYSIS_CONFIG_THRESHOLDS_ENTITY_CONFIDENCE) ∧
        (jsTrim (TA.stripHash e.word)).map jsToLower = tok.text.map jsToLower := by
  intro entities
  induction entities with
  | nil =>
    intro tokens tok hmem hscore
    exact Or.inl ⟨tok, hmem, rfl, hscore⟩
  | cons e es ih =>
    intro tokens tok hmem hscore
    have hmem' : tok ∈ TA.applyNER (TA.applyNERStep tokens e) es := hmem
    rcases ih (TA.applyNERStep tokens e) tok hmem' hscore with ⟨t, ht, htext, hts⟩ | ⟨e', he', h1, h2⟩
    · by_cases hsc : e.score < ANALYSIS_CONFIG_THRESHOLDS_ENTITY_CONFIDENCE
      · have hstep : TA.applyNERStep tokens e = tokens := by
          rw [TA.applyNERStep, if_pos hsc]
        rw [hstep] at ht
        exact Or.inl ⟨t, ht, htext, hts⟩
      · have hstep : TA.applyNERStep tokens e =
            tokens.map (fun token =>
              if token.isPunctuation then token
              else if token.text.map jsToLower =
                  (jsTrim (TA.stripHash e.word)).map jsToLower then
                { token with
                  entity := TA.jsOrStr e.entity_group e.entity,
                  entityType := TA.normalizeEntityType (TA.jsOrStr e.entity_group e.entity),
                  entityScore := some e.score,
                  entityStart := some e.start,
                  entityEnd := some e.stop }
              else token) := by
          rw [TA.applyNERStep, if_neg hsc]
        rw [hstep] at ht
        rcases List.mem_map.mp ht with ⟨t0, ht0, heq⟩
        by_cases hp : t0.isPunctuation = true
        · rw [if_pos hp] at heq
          subst heq
          exact Or.inl ⟨t0, ht0, htext, hts⟩
        · rw [if_neg hp] at heq
          by_cases hm : t0.text.map jsToLower = (jsTrim (TA.stripHash e.word)).map jsToLower
          · rw [if_pos hm] at heq
            refine Or.inr ⟨e, List.mem_cons_self e es, hsc, ?_⟩
            have htt : t0.text = tok.text := by
              rw [← htext, ← heq]
            rw [← htt, ← hm]
          · rw [if_neg hm] at heq
            subst heq
            exact Or.inl ⟨t0, ht0, htext, hts⟩
    · exact Or.inr ⟨e', List.mem_cons_of_mem e he', h1, h2⟩

/-- C8 (confirmed): starting from unannotated tokens, an entity ends up
attached to a token only if its confidence reaches the configured floor
`ANALYSIS_CONFIG.THRESHOLDS.ENTITY_CONFIDENCE = 0.75` and its surface form
(after sub-token-marker stripping and trimming) is exactly string-equal,
on lowercased form, to the token's text.  Entities below the floor, and
entities matching a token only partially (e.g. "Berlin" against
"Berliner"), are never attached. -/
theorem applyNER_confidence_floor_and_exact_match :
    (∀ (entities : List TA.Entity) (tokens : List TA.NToken) (tok : TA.NToken),
        (∀ t ∈ tokens, t.entityScore = none) →
        tok ∈ TA.applyNER tokens entities →
        tok.entityScore ≠ none →
        ∃ e ∈ entities,
          ANALYSIS_CONFIG_THRESHOLDS_ENTITY_CONFIDENCE ≤ e.score ∧
          (jsTrim (TA.stripHash e.word)).map jsToLower = tok.text.map jsToLower) ∧
    (TA.applyNER [⟨ str "Berliner", 0, false, none, none, none, none, none⟩]
        [⟨ str "Berlin", some (str "PER"), none, 9/10, 0, 6⟩]).map (fun t => t.entityScore) =
      [none] ∧
    (TA.applyNER [⟨ str "Berlin", 0, false, none, none, none, none, none⟩]
        [⟨ str "Berlin", some (str "PER"), none, 6/10, 0, 6⟩]).map (fun t => t.entityScore) =
      [none] := by
  refine ⟨?_, ?_, ?_⟩
  · intro entities tokens tok hinit hmem hscore
    rcases applyNER_attached_aux entities tokens tok hmem hscore with ⟨t, ht, _, hts⟩ | ⟨e, he, h1, h2⟩
    · exact absurd (hinit t ht) hts
    · exact ⟨e, he, not_lt.mp h1, h2⟩
  · with_unfolding_all decide
  · with_unfolding_all decide

theorem applyNER_confidence_floor_witness :
    ∃ e ∈ ([⟨ str "Berlin", some (str "PER"), none, 9/10, 0, 6⟩] : List TA.Entity),
      ANALYSIS_CONFIG_THRESHOLDS_ENTITY_CONFIDENCE ≤ e.score ∧
      (jsTrim (TA.stripHash e.word)).map jsToLower = (str "Berlin").map jsToLower := by
  have h := applyNER_confidence_floor_and_exact_match.1
    [⟨ str "Berlin", some (str "PER"), none, 9/10, 0, 6⟩]
    [⟨ str "Berlin", 0, false, none, none, none, none, none⟩]
    { text := str "Berlin", position := 0, isPunctuation := false,
      entity := some (str "PER"), entityType := some (str "Person"),
      entityScore := some (9/10), entityStart := some 0, entityEnd := some 6 }
    (by decide) (by with_unfolding_all decide) (by decide)
  exact h

theorem pushPos_findVal (w' : List Char) (p : ℕ) :
    ∀ (acc : List (List Char × List ℕ)) (w : List Char),
      PPA.findVal w (PPA.pushPos acc w' p) =
        if w' = w then some ((PPA.findVal w acc).getD [] ++ [p])
        else PPA.findVal w acc := by
  intro acc
  induction acc with
  | nil =>
    intro w
    by_cases h : w' = w
    · subst h
      simp [PPA.pushPos, PPA.findVal]
    · simp [PPA.pushPos, PPA.findVal, h]
  | cons kv rest ih =>
    intro w
    obtain ⟨k, v⟩ := kv
    by_cases hk : k = w'
    · subst hk
      by_cases hw : k = w
      · subst hw
        simp [PPA.pushPos, PPA.findVal]
      · simp [PPA.pushPos, PPA.findVal, hw, fun h : k = w => hw h]
    · by_cases hw : k = w
      · subst hw
        have hww : ¬ w' = k := fun h => hk h.symm
        simp [PPA.pushPos, PPA.findVal, hk, hww]
      · simp [PPA.pushPos, PPA.findVal, hk, hw, ih w]

theorem buildFreq_findVal :
    ∀ (ps : List (List Char × ℕ)) (acc : List (List Char × List ℕ)) (w : List Char),
      PPA.findVal w (PPA.buildFreq ps acc) =
        PPA.combineVal (PPA.findVal w acc)
          ((ps.filter (fun e => e.1 = w)).map (fun e => e.2)) := by
  intro ps
  induction ps with
  | nil =>
    intro acc w
    cases h : PPA.findVal w acc <;> simp [PPA.buildFreq, PPA.combineVal, h]
  | cons e rest ih =>
    intro acc w
    obtain ⟨w', p⟩ := e
    show PPA.findVal w (PPA.buildFreq rest (PPA.pushPos acc w' p)) = _
    rw [ih (PPA.pushPos acc w' p) w, pushPos_findVal w' p acc w]
    by_cases hw : w' = w
    · subst hw
      rw [if_pos rfl]
      cases h : PPA.findVal w' acc <;>
        simp [PPA.combineVal, List.filter_cons, h]
    · rw [if_neg hw]
      have : (((w', p) :: rest).filter (fun e => e.1 = w)).map (fun e => e.2) =
          (rest.filter (fun e => e.1 = w)).map (fun e => e.2) := by
        simp [List.filter_cons, hw]
      rw [this]

theorem pushPos_keys (w : List Char) (p : ℕ) :
    ∀ acc : List (List Char × List ℕ),
      (PPA.pushPos acc w p).map Prod.fst =
        if w ∈ acc.map Prod.fst then acc.map Prod.fst else acc.map Prod.fst ++ [w] := by
  intro acc
  induction acc with
  | nil => simp [PPA.pushPos]
  | cons kv rest ih =>
    obtain ⟨k, v⟩ := kv
    by_cases hk : k = w
    · subst hk
      simp [PPA.pushPos]
    · have hk2 : ¬ w = k := fun h => hk h.symm
      by_cases hmem : w ∈ rest.map Prod.fst
      · simp [PPA.pushPos, hk, hk2, ih, hmem]
      · simp [PPA.pushPos, hk, hk2, ih, hmem]

theorem pushPos_keys_nodup (w : List Char) (p : ℕ) (acc : List (List Char × List ℕ))
    (h : (acc.map Prod.fst).Nodup) : ((PPA.pushPos acc w p).map Prod.fst).Nodup := by
  rw [pushPos_keys w p acc]
  by_cases hmem : w ∈ acc.map Prod.fst
  · simpa [hmem] using h
  · simp [hmem, List.nodup_append, h]

theorem buildFreq_keys_nodup :
    ∀ (ps : List (List Char × ℕ)) (acc : List (List Char × List ℕ)),
      (acc.map Prod.fst).Nodup → ((PPA.buildFreq ps acc).map Prod.fst).Nodup := by
  intro ps
  induction ps with
  | nil => intro acc h; exact h
  | cons e rest ih =>
    intro acc h
    exact ih (PPA.pushPos acc e.1 e.2) (pushPos_keys_nodup e.1 e.2 acc h)

theorem findVal_mem :
    ∀ (l : List (List Char × List ℕ)) (w : List Char) (v : List ℕ),
      PPA.findVal w l = some v → (w, v) ∈ l := by
  intro l
  induction l with
  | nil => intro w v h; simp [PPA.findVal] at h
  | cons kv rest ih =>
    intro w v h
    obtain ⟨k, u⟩ := kv
    by_cases hk : k = w
    · subst hk
      rw [PPA.findVal, if_pos rfl] at h
      obtain rfl : u = v := Option.some_injective _ h
      exact List.mem_cons_self _ _
    · rw [PPA.findVal, if_neg hk] at h
      exact List.mem_cons_of_mem _ (ih w v h)

theorem findVal_of_mem_nodup :
    ∀ (l : List (List Char × List ℕ)) (w : List Char) (v : List ℕ),
      (w, v) ∈ l → (l.map Prod.fst).Nodup → PPA.findVal w l = some v := by
  intro l
  induction l with
  | nil => intro w v h _; simp at h
  | cons kv rest ih =>
    intro w v h hnd
    obtain ⟨k, u⟩ := kv
    rcases List.mem_cons.mp h with heq | hmem
    · injection heq with h1 h2
      subst h1
      subst h2
      rw [PPA.findVal, if_pos rfl]
    · by_cases hk : k = w
      · subst hk
        have : k ∈ rest.map Prod.fst := List.mem_map.mpr ⟨(k, v), hmem, rfl⟩
        simp [List.nodup_cons, this] at hnd
      · rw [PPA.findVal, if_neg hk]
        exact ih w v hmem (List.nodup_cons.mp (by simpa using hnd)).2

theorem reps_positions_eq (tokens : List PPA.Token) (w : List Char) :
    (((tokens.filter (fun t => !t.isPunctuation && 3 ≤ t.text.length)).map
        (fun t => (t.text.map jsToLower, t.position))).filter
          (fun e => e.1 = w)).map (fun e => e.2) =
      ((tokens.filter (fun t => !t.isPunctuation && 3 ≤ t.text.length)).filter
        (fun t => t.text.map jsToLower = w)).map (fun t => t.position) := by
  simp [List.filter_map, List.map_map, Function.comp]

theorem reps_count_le (tokens : List PPA.Token) (w : List Char) :
    ((tokens.filter (fun t => !t.isPunctuation && 3 ≤ t.text.length)).filter
        (fun t => t.text.map jsToLower = w)).length ≤ PPA.occurrences tokens w := by
  unfold PPA.occurrences
  rw [List.filter_filter, List.filter_filter,
    ← List.countP_eq_length_filter, ← List.countP_eq_length_filter]
  apply List.countP_mono_left
  intro t _ h
  simp only [Bool.and_eq_true, decide_eq_true_eq] at h ⊢
  exact ⟨h.1, h.2.1⟩

theorem reps_count_eq (tokens : List PPA.Token) (w : List Char) (h3 : 3 ≤ w.length) :
    ((tokens.filter (fun t => !t.isPunctuation && 3 ≤ t.text.length)).filter
        (fun t => t.text.map jsToLower = w)).length = PPA.occurrences tokens w := by
  unfold PPA.occurrences
  rw [List.filter_filter, List.filter_filter]
  congr 1
  apply List.filter_congr
  intro t _
  by_cases hpw : t.text.map jsToLower = w
  · have hlen : 3 ≤ t.text.length := by
      have h1 : (t.text.map jsToLower).length = w.length := congrArg List.length hpw
      rw [List.length_map] at h1
      omega
    simp [hpw, hlen]
  · simp [hpw]

/-- C7 (corrected, counterexample): a word of length 2 occurring twice is
not listed in the repetitions — the length filter (`minLength = 3`)
excludes it, contradicting "every word occurring two or more times always
appears". -/
theorem findRepetitions_short_word_counterexample :
    PPA.occurrences [⟨ str "ab", 0, 0, false⟩, ⟨ str "ab", 3, 1, false⟩] (str "ab") = 2 ∧
    PPA.findRepetitions [⟨ str "ab", 0, 0, false⟩, ⟨ str "ab", 3, 1, false⟩] 3 = [] := by
  decide

/-- C7 (amended): in `findRepetitions` with the default length filter
`minLength = 3`, a (lowercased) word occurring exactly once never appears
in the result, and every word of length ≥ 3 occurring two or more times
among the non-punctuation tokens always appears, with both its `count` and
the length of its `positions` array equal to its occurrence count; words
shorter than 3 characters are excluded by the length filter. -/
theorem findRepetitions_threshold :
    (∀ (tokens : List PPA.Token) (w : List Char),
        PPA.occurrences tokens w = 1 →
        ∀ r ∈ PPA.findRepetitions tokens 3, r.word ≠ w) ∧
    (∀ (tokens : List PPA.Token) (w : List Char),
        2 ≤ PPA.occurrences tokens w → 3 ≤ w.length →
        ∃ r ∈ PPA.findRepetitions tokens 3,
          r.word = w ∧ r.count = PPA.occurrences tokens w ∧
          r.positions.length = PPA.occurrences tokens w) := by
  constructor
  · intro tokens w hocc r hr hword
    simp only [PPA.findRepetitions] at hr
    rcases List.mem_map.mp hr with ⟨e, he, rfl⟩
    have hw1 : e.1 = w := hword
    have he2 := List.mem_filter.mp he
    have hnd : ((PPA.buildFreq
        ((tokens.filter (fun t => !t.isPunctuation && 3 ≤ t.text.length)).map
          (fun t => (t.text.map jsToLower, t.position))) []).map Prod.fst).Nodup :=
      buildFreq_keys_nodup _ [] (by simp)
    have hfv : PPA.findVal w (PPA.buildFreq
        ((tokens.filter (fun t => !t.isPunctuation && 3 ≤ t.text.length)).map
          (fun t => (t.text.map jsToLower, t.position))) []) = some e.2 := by
      rw [← hw1]
      exact findVal_of_mem_nodup _ e.1 e.2 he2.1 hnd
    have hfull := buildFreq_findVal
      ((tokens.filter (fun t => !t.isPunctuation && 3 ≤ t.text.length)).map
        (fun t => (t.text.map jsToLower, t.position))) [] w
    rw [reps_positions_eq tokens w, hfv] at hfull
    by_cases hp0 : ((tokens.filter (fun t => !t.isPunctuation && 3 ≤ t.text.length)).filter
        (fun t => t.text.map jsToLower = w)).map (fun t => t.position) = []
    · rw [hp0] at hfull
      simp [PPA.combineVal, PPA.findVal] at hfull
    · obtain ⟨a, l, hal⟩ := List.exists_cons_of_ne_nil hp0
      rw [hal] at hfull
      have he22 : e.2 = a :: l := by
        simpa [PPA.combineVal, PPA.findVal] using hfull
      have hlt : 1 < e.2.length := by simpa using he2.2
      have hle := reps_count_le tokens w
      have hlen2 : (((tokens.filter (fun t => !t.isPunctuation && 3 ≤ t.text.length)).filter
          (fun t => t.text.map jsToLower = w)).map (fun t => t.position)).length =
          ((tokens.filter (fun t => !t.isPunctuation && 3 ≤ t.text.length)).filter
            (fun t => t.text.map jsToLower = w)).length := List.length_map _ _
      rw [hal] at hlen2
      rw [he22] at hlt
      simp only [List.length_cons] at hlt hlen2
      omega
  · intro tokens w h2 h3
    have hfull := buildFreq_findVal
      ((tokens.filter (fun t => !t.isPunctuation && 3 ≤ t.text.length)).map
        (fun t => (t.text.map jsToLower, t.position))) [] w
    rw [reps_positions_eq tokens w] at hfull
    have hlen : (((tokens.filter (fun t => !t.isPunctuation && 3 ≤ t.text.length)).filter
        (fun t => t.text.map jsToLower = w)).map (fun t => t.position)).length =
        PPA.occurrences tokens w := by
      rw [List.length_map]
      exact reps_count_eq tokens w h3
    have hne : ((tokens.filter (fun t => !t.isPunctuation && 3 ≤ t.text.length)).filter
        (fun t => t.text.map jsToLower = w)).map (fun t => t.position) ≠ [] := by
      intro h0
      rw [h0] at hlen
      simp at hlen
      omega
    obtain ⟨a, l, hal⟩ := List.exists_cons_of_ne_nil hne
    rw [hal] at hfull hlen
    have hcomb : PPA.combineVal (PPA.findVal w []) (a :: l) = some (a :: l) := rfl
    rw [hcomb] at hfull
    have hmem := findVal_mem _ w (a :: l) hfull
    have h1lt : 1 < (a :: l).length := by
      simp only [List.length_cons] at hlen ⊢
      omega
    refine ⟨⟨w, (a :: l).length, a :: l⟩, ?_, rfl, hlen, hlen⟩
    simp only [PPA.findRepetitions]
    exact List.mem_map.mpr ⟨(w, a :: l),
      List.mem_filter.mpr ⟨hmem, by simpa using h1lt⟩, rfl⟩

theorem findRepetitions_threshold_witness :
    ∃ r ∈ PPA.findRepetitions
        [⟨ str "der", 0, 0, false⟩, ⟨ str "Haus", 4, 1, false⟩, ⟨ str "der", 9, 2, false⟩] 3,
      r.word = str "der" ∧ r.count = 2 ∧ r.positions.length = 2 := by
  have h := findRepetitions_threshold.2
    [⟨ str "der", 0, 0, false⟩, ⟨ str "Haus", 4, 1, false⟩, ⟨ str "der", 9, 2, false⟩]
    (str "der") (by decide) (by decide)
  have e : PPA.occurrences
      [⟨ str "der", 0, 0, false⟩, ⟨ str "Haus", 4, 1, false⟩, ⟨ str "der", 9, 2, false⟩]
      (str "der") = 2 := by decide
  rw [e] at h
  exact h
